import Mathlib

/-!
Verification of the `colorize_theme` utility (blue-gold repository).

The program resolves symbolic color references in a VSCode theme document
through a two-level table: color groups (name → literal value) and binding
categories (UI element → color name).  We embed the data model and the four
lookup operations of class `ColorMappings`, together with the theme rewriter
`apply_to_theme`, and prove the specified properties.

Python dictionaries are modelled as association lists (insertion order
preserved, lookup returns the binding of the first matching key; Python dict
keys are unique, which first-match lookup generalizes).  Exceptions are
modelled with `Except` over an inductive error type whose constructors follow
the error taxonomy of the design document; each constructor corresponds to
one distinct `raise` site of the source.
-/

namespace ColorizeTheme

/-- Association-list lookup: the value bound to the first occurrence of the
key, mirroring Python `d[k]` / `k in d` on dicts (whose keys are unique). -/
def lookupA {β : Type} (k : String) : List (String × β) → Option β
  | [] => none
  | (k', v) :: rest => if k' = k then some v else lookupA k rest

/-- The error taxonomy.  Each constructor corresponds to one `raise` site of
`colorize_theme.py`, named following the design document. -/
inductive ResolveError : Type where
  /-- Raised when a name contains more than one qualifier separator. -/
  | malformedName (name : String)
  /-- Raised when a color name has no matching entry. -/
  | colorNotFound (name : String)
  /-- Raised when a qualifier matches no color group. -/
  | groupNotFound (group : String)
  /-- Raised when a binding reference lacks a qualifier. -/
  | unqualifiedBinding (name : String)
  /-- Raised when a binding qualifier matches no category. -/
  | categoryNotFound (category : String)
  /-- Raised when an element name has no entry in its category. -/
  | elementNotFound (element : String) (category : String)
deriving DecidableEq, Repr

/-- A color group: a map from color name to color value. -/
abbrev ColorGroup := List (String × String)

/-- A color map: a map from group key to color group. -/
abbrev ColorMap := List (String × ColorGroup)

/-- A binding category: a map from element name to color name. -/
abbrev BindingCategory := List (String × String)

/-- The state of a `ColorMappings` object: the grouped color map and the
binding categories, as passed to `__init__`. -/
structure ColorMappings where
  color_map : ColorMap
  bindings : List (String × BindingCategory)
deriving DecidableEq, Repr

/-- The loop body of `ColorMappings.__init__`: insert a (name, value) pair
into the accumulated index only when the name is not yet present
(`if name not in self.all_colors`). -/
def insertIfNew (acc : List (String × String)) (p : String × String) :
    List (String × String) :=
  if (lookupA p.1 acc).isSome then acc else acc ++ [p]

/-- The flattened color index `all_colors` built by `ColorMappings.__init__`:
iterate the groups in order, within each group iterate the (name, value)
pairs in order, and insert a pair only when the name is not yet present. -/
def mkAllColors (groups : ColorMap) : List (String × String) :=
  groups.foldl (fun acc g => g.2.foldl insertIfNew acc) []

/-- The derived flattened index `all_colors` of a table. -/
def ColorMappings.all_colors (cm : ColorMappings) : List (String × String) :=
  mkAllColors cm.color_map

/-- Embedding of the name decomposer of `ColorMappings`: split a possibly qualified name at its
single `'.'`; no dot gives no qualifier, more than one dot is malformed. -/
def decompose_name (name : String) : Except ResolveError (Option String × String) :=
  if name.toList.count '.' = 0 then
    .ok (none, name)
  else if name.toList.count '.' > 1 then
    .error (.malformedName name)
  else
    .ok (some ⟨name.toList.takeWhile (· ≠ '.')⟩,
         ⟨(name.toList.dropWhile (· ≠ '.')).drop 1⟩)

/-- Embedding of `ColorMappings.get_color_for_name`: resolve a color reference to a
literal value, via the flattened index when unqualified and via the named
group when qualified. -/
def ColorMappings.get_color_for_name (cm : ColorMappings) (color : String) :
    Except ResolveError String := do
  let (qual, name) ← decompose_name color
  match qual with
  | none =>
    match lookupA name cm.all_colors with
    | none => .error (.colorNotFound name)
    | some v => .ok v
  | some q =>
    match lookupA q cm.color_map with
    | none => .error (.groupNotFound q)
    | some gr =>
      match lookupA name gr with
      | none => .error (.colorNotFound name)
      | some v => .ok v

/-- Embedding of `ColorMappings.get_color_name_for_binding`: resolve a binding reference
to a color name; the reference must carry a category qualifier. -/
def ColorMappings.get_color_name_for_binding (cm : ColorMappings)
    (binding_name : String) : Except ResolveError String := do
  let (qual, name) ← decompose_name binding_name
  match qual with
  | none => .error (.unqualifiedBinding binding_name)
  | some q =>
    match lookupA q cm.bindings with
    | none => .error (.categoryNotFound q)
    | some cat =>
      match lookupA name cat with
      | none => .error (.elementNotFound name q)
      | some cn => .ok cn

/-- Embedding of `ColorMappings.get_color_for_binding`: the composition of the two
resolution stages. -/
def ColorMappings.get_color_for_binding (cm : ColorMappings)
    (binding_name : String) : Except ResolveError String := do
  let cn ← cm.get_color_name_for_binding binding_name
  cm.get_color_for_name cn

/-- The `settings` sub-object of a token-color rule: the two rewritable
fields (optional, as in the JSON), plus the untouched remainder. -/
structure ThemeSettings where
  foreground : Option String
  background : Option String
  rest : List (String × String)
deriving DecidableEq, Repr

/-- A rule object of the `tokenColors` list: an optional `settings`
sub-object plus the untouched remainder (`name`, `scope`, ...). -/
structure TokenColorRule where
  settings : Option ThemeSettings
  rest : List (String × String)
deriving DecidableEq, Repr

/-- A theme document: the flat `colors` map, the `tokenColors` rule list,
and the untouched remainder of the top level. -/
structure Theme where
  colors : List (String × String)
  tokenColors : List TokenColorRule
  rest : List (String × String)
deriving DecidableEq, Repr

/-- The literal-marker test `value.startswith("#")`: does the string begin
with the character `'#'`? (Stated on the character list of the string, the
level at which this embedding reasons about strings.) -/
def isLiteral (v : String) : Bool :=
  match v.data with
  | [] => false
  | c :: _ => c = '#'

/-- The per-value rewrite of `apply_to_theme`: a value starting with the
literal marker `'#'` passes through, anything else is resolved as a binding
reference. -/
def resolveValue (cm : ColorMappings) (v : String) : Except ResolveError String :=
  if isLiteral v then .ok v else cm.get_color_for_binding v

/-- The `colors`-map loop of `apply_to_theme`: rewrite each value in order,
keys untouched; the first failure aborts. -/
def applyToColors (cm : ColorMappings) :
    List (String × String) → Except ResolveError (List (String × String))
  | [] => .ok []
  | (k, v) :: rest => do
    let v' ← resolveValue cm v
    let rest' ← applyToColors cm rest
    .ok ((k, v') :: rest')

/-- One optional field (`foreground` or `background`) of a `settings`
object: absent fields are skipped, present fields are rewritten. -/
def applyToField (cm : ColorMappings) :
    Option String → Except ResolveError (Option String)
  | none => .ok none
  | some v => do
    let v' ← resolveValue cm v
    .ok (some v')

/-- Rewrite one `settings` object: `foreground` first, then `background`,
other fields untouched. -/
def applyToSettings (cm : ColorMappings) (s : ThemeSettings) :
    Except ResolveError ThemeSettings := do
  let fg ← applyToField cm s.foreground
  let bg ← applyToField cm s.background
  .ok { s with foreground := fg, background := bg }

/-- The `tokenColors` loop of `apply_to_theme`: a rule without `settings`
is skipped, otherwise its `settings` object is rewritten in place. -/
def applyToTokenColors (cm : ColorMappings) :
    List TokenColorRule → Except ResolveError (List TokenColorRule)
  | [] => .ok []
  | r :: rs => do
    let r' ←
      match r.settings with
      | none => Except.ok r
      | some s => do
        let s' ← applyToSettings cm s
        .ok { r with settings := some s' }
    let rs' ← applyToTokenColors cm rs
    .ok (r' :: rs')

/-- Embedding of `ColorMappings.apply_to_theme` on the parsed document: rewrite
the `colors` map, then the `tokenColors` rules, leaving everything else as
it was. -/
def ColorMappings.apply_to_theme (cm : ColorMappings) (theme : Theme) :
    Except ResolveError Theme := do
  let colors' ← applyToColors cm theme.colors
  let tc' ← applyToTokenColors cm theme.tokenColors
  .ok { theme with colors := colors', tokenColors := tc' }

/-- Is an optional string field absent or a literal (`'#'`-prefixed) value? -/
def literalOpt : Option String → Bool
  | none => true
  | some v => isLiteral v

/-- Does a token-color rule carry only literal `foreground`/`background`
values (vacuously true when `settings` is absent)? -/
def literalRule (r : TokenColorRule) : Bool :=
  match r.settings with
  | none => true
  | some s => literalOpt s.foreground && literalOpt s.background

/-- Does a theme contain only literal values in every rewritable position? -/
def allLiteralTheme (t : Theme) : Bool :=
  t.colors.all (fun p => isLiteral p.2) && t.tokenColors.all literalRule

/-- Does every color value stored in the color table start with `'#'`? -/
def allLiteralTable (cm : ColorMappings) : Bool :=
  cm.color_map.all (fun g => g.2.all (fun p => isLiteral p.2))

/-- The scenario tables of the design document: colors
`{"blues": {"sky": "#87ceeb"}}`, bindings `{"ui": {"border": "sky"}}`. -/
def sampleCM : ColorMappings :=
  { color_map := [("blues", [("sky", "#87ceeb")])],
    bindings := [("ui", [("border", "sky")])] }

/-- Tables with the color name `sky` duplicated across two groups. -/
def dupCM : ColorMappings :=
  { color_map := [("blues", [("sky", "#87ceeb"), ("navy", "#000080")]),
                  ("grays", [("sky", "#9999aa"), ("slate", "#708090")])],
    bindings := [("ui", [("border", "sky")])] }

/-- A small theme document exercising both rewritable regions. -/
def sampleTheme : Theme :=
  { colors := [("panel.border", "ui.border"), ("panel.background", "#ffffff")],
    tokenColors :=
      [{ settings := some { foreground := some "ui.border", background := none,
                            rest := [("fontStyle", "bold")] },
         rest := [("name", "keyword")] },
       { settings := none, rest := [("name", "plain")] }],
    rest := [("name", "My Theme")] }

/-- A theme whose rewritable values are all literal already. -/
def litTheme : Theme :=
  { colors := [("panel.border", "#111111")],
    tokenColors :=
      [{ settings := some { foreground := some "#222222", background := none,
                            rest := [("fontStyle", "bold")] },
         rest := [("name", "keyword")] }],
    rest := [("name", "My Theme")] }

/-- The theme obtained by rewriting `sampleTheme` through `sampleCM`. -/
def sampleThemeOut : Theme :=
  { colors := [("panel.border", "#87ceeb"), ("panel.background", "#ffffff")],
    tokenColors :=
      [{ settings := some { foreground := some "#87ceeb", background := none,
                            rest := [("fontStyle", "bold")] },
         rest := [("name", "keyword")] },
       { settings := none, rest := [("name", "plain")] }],
    rest := [("name", "My Theme")] }

/-- One `colors`-map entry after rewriting: same key; a literal value kept
verbatim, a reference replaced by its resolved color. -/
def colorEntryRewritten (cm : ColorMappings) (p p' : String × String) : Prop :=
  p'.1 = p.1
  ∧ (isLiteral p.2 = true → p'.2 = p.2)
  ∧ (isLiteral p.2 = false → cm.get_color_for_binding p.2 = .ok p'.2)

/-- One optional `foreground`/`background` field after rewriting: absent
stays absent; a literal value kept verbatim; a reference replaced. -/
def fieldRewritten (cm : ColorMappings) (o o' : Option String) : Prop :=
  (o = none → o' = none)
  ∧ ∀ v, o = some v →
      (isLiteral v = true → o' = some v)
      ∧ (isLiteral v = false →
          ∃ c, cm.get_color_for_binding v = .ok c ∧ o' = some c)

/-- One token-color rule after rewriting: when a `settings` sub-object is
present, its `foreground` and `background` are rewritten independently. -/
def ruleRewritten (cm : ColorMappings) (r r' : TokenColorRule) : Prop :=
  ∀ s, r.settings = some s →
    ∃ s', r'.settings = some s'
      ∧ fieldRewritten cm s.foreground s'.foreground
      ∧ fieldRewritten cm s.background s'.background

/-- The frame of one token-color rule: everything outside the rewritable
`foreground`/`background` fields is preserved, and absent pieces stay
absent. -/
def ruleFramePreserved (r r' : TokenColorRule) : Prop :=
  r'.rest = r.rest
  ∧ (r.settings = none → r' = r)
  ∧ ∀ s, r.settings = some s →
      ∃ s', r'.settings = some s'
        ∧ s'.rest = s.rest
        ∧ (s.foreground = none → s'.foreground = none)
        ∧ (s.background = none → s'.background = none)

/-! ## Lemmas about association-list lookup and the flattened index -/

theorem lookupA_append {β : Type} (k : String) (l1 l2 : List (String × β)) :
    lookupA k (l1 ++ l2) =
      match lookupA k l1 with
      | some v => some v
      | none => lookupA k l2 := by
  induction l1 with
  | nil => simp [lookupA]
  | cons p l ih =>
    obtain ⟨k', v⟩ := p
    by_cases h : k' = k
    · simp [lookupA, h]
    · simp [lookupA, h, ih]

theorem lookupA_foldl_insertIfNew (k : String) (ps : List (String × String)) :
    ∀ acc, lookupA k (ps.foldl insertIfNew acc) =
      match lookupA k acc with
      | some v => some v
      | none => lookupA k ps := by
  induction ps with
  | nil =>
    intro acc
    cases h : lookupA k acc <;> simp [lookupA, h]
  | cons p ps ih =>
    intro acc
    obtain ⟨k', v⟩ := p
    simp only [List.foldl_cons]
    rw [ih]
    by_cases hmem : (lookupA k' acc).isSome
    · have hacc : insertIfNew acc (k', v) = acc := by
        simp [insertIfNew, hmem]
      rw [hacc]
      cases h : lookupA k acc with
      | some w => simp [h]
      | none =>
        have hne : k' ≠ k := fun he => by
          rw [he, h] at hmem; simp at hmem
        simp [h, lookupA, hne]
    · have hacc : insertIfNew acc (k', v) = acc ++ [(k', v)] := by
        simp [insertIfNew, hmem]
      rw [hacc, lookupA_append]
      cases h : lookupA k acc with
      | some w => simp [h]
      | none =>
        by_cases hne : k' = k <;> simp [h, lookupA, hne]

theorem mkAllColors_foldl (groups : ColorMap) :
    ∀ acc, groups.foldl (fun acc g => g.2.foldl insertIfNew acc) acc =
      (groups.flatMap (fun g => g.2)).foldl insertIfNew acc := by
  induction groups with
  | nil => intro acc; simp
  | cons g gs ih =>
    intro acc
    simp only [List.foldl_cons, List.flatMap_cons, List.foldl_append]
    exact ih _

/-- Lookup in the flattened index agrees with first-occurrence lookup in the
in-order concatenation of all groups. -/
theorem lookupA_mkAllColors (k : String) (groups : ColorMap) :
    lookupA k (mkAllColors groups) =
      lookupA k (groups.flatMap (fun g => g.2)) := by
  rw [mkAllColors, mkAllColors_foldl, lookupA_foldl_insertIfNew]
  simp [lookupA]

theorem lookupA_flatMap_none (k : String) (gs : ColorMap)
    (h : ∀ p ∈ gs, lookupA k p.2 = none) :
    lookupA k (gs.flatMap (fun g => g.2)) = none := by
  induction gs with
  | nil => simp [lookupA]
  | cons g gs ih =>
    have h1 : lookupA k g.2 = none := h g (List.mem_cons_self _ _)
    have h2 := ih (fun p hp => h p (List.mem_cons_of_mem _ hp))
    simp [List.flatMap_cons, lookupA_append, h1, h2]

/-- C2: the flattened unqualified-name index is built by inserting each
(name, value) pair only when the name is absent, so an unqualified
`get_color_for_name` on a duplicated name returns the value of the first
group (in order) defining it; later duplicates never override it. -/
theorem flattened_index_first_group_wins
    (colors : ColorMap) (bnd : List (String × BindingCategory))
    (gs1 gs2 : ColorMap) (gk : String) (g : ColorGroup) (name v : String)
    (hsplit : colors = gs1 ++ (gk, g) :: gs2)
    (hfirst : ∀ p ∈ gs1, lookupA name p.2 = none)
    (hdef : lookupA name g = some v)
    (hdot : name.toList.count '.' = 0) :
    (ColorMappings.mk colors bnd).get_color_for_name name = .ok v := by
  have hdot' : List.count '.' name.data = 0 := hdot
  have hdec : decompose_name name = .ok (none, name) := by
    simp [decompose_name, hdot']
  have hflat : lookupA name (ColorMappings.mk colors bnd).all_colors = some v := by
    rw [ColorMappings.all_colors, lookupA_mkAllColors]
    subst hsplit
    rw [List.flatMap_append, List.flatMap_cons, lookupA_append,
        lookupA_flatMap_none name gs1 hfirst, lookupA_append, hdef]
  simp [ColorMappings.get_color_for_name, hdec, hflat, bind, Except.bind]

/-- Witness for C2: in `dupCM` the name `sky` is defined by both groups;
the unqualified lookup returns the first group's value. -/
theorem flattened_index_first_group_wins_witness :
    dupCM.get_color_for_name "sky" = .ok "#87ceeb" :=
  flattened_index_first_group_wins dupCM.color_map dupCM.bindings
    [] [("grays", [("sky", "#9999aa"), ("slate", "#708090")])]
    "blues" [("sky", "#87ceeb"), ("navy", "#000080")] "sky" "#87ceeb"
    rfl (by simp) (by decide) (by decide)

/-! ## C5: name decomposition -/

theorem dropWhile_dot_head (l : List Char) (h : '.' ∈ l) :
    l.dropWhile (fun c => !decide (c = '.'))
      = '.' :: (l.dropWhile (fun c => !decide (c = '.'))).tail := by
  induction l with
  | nil => simp at h
  | cons a l ih =>
    by_cases ha : a = '.'
    · subst ha
      simp [List.dropWhile_cons]
    · have hmem : '.' ∈ l := by
        rcases List.mem_cons.mp h with h1 | h1
        · exact absurd h1.symm ha
        · exact h1
      simp only [List.dropWhile_cons, ha, decide_False, Bool.not_false, if_true]
      exact ih hmem

theorem count_dot_takeWhile (l : List Char) :
    (l.takeWhile (fun c => !decide (c = '.'))).count '.' = 0 := by
  rw [List.count_eq_zero]
  intro hmem
  have := List.mem_takeWhile_imp hmem
  simp at this

/-- C5: decomposition returns (absent, whole string) when the string has no
`'.'`, splits at the dot into a dot-free prefix and the suffix when there is
exactly one `'.'`, and fails with `MalformedNameError` naming the offending
string when there is more than one `'.'`. -/
theorem decompose_name_cases (name : String) :
    (name.toList.count '.' = 0 → decompose_name name = .ok (none, name))
    ∧ (name.toList.count '.' = 1 →
        ∃ p s, decompose_name name = .ok (some p, s)
          ∧ p.toList.count '.' = 0
          ∧ p.toList ++ '.' :: s.toList = name.toList)
    ∧ (name.toList.count '.' > 1 →
        decompose_name name = .error (.malformedName name)) := by
  refine ⟨fun h0 => ?_, fun h1 => ?_, fun h2 => ?_⟩
  · have h0' : List.count '.' name.data = 0 := h0
    simp [decompose_name, h0']
  · have h1' : List.count '.' name.data = 1 := h1
    refine ⟨⟨name.data.takeWhile (fun c => !decide (c = '.'))⟩,
           ⟨(name.data.dropWhile (fun c => !decide (c = '.'))).drop 1⟩, ?_, ?_, ?_⟩
    · simp [decompose_name, h1', List.drop_one]
    · exact count_dot_takeWhile name.data
    · have hmem : '.' ∈ name.data := List.count_pos_iff.mp (by omega)
      show name.data.takeWhile (fun c => !decide (c = '.'))
          ++ '.' :: ((name.data.dropWhile (fun c => !decide (c = '.'))).drop 1)
          = name.data
      rw [List.drop_one, ← dropWhile_dot_head name.data hmem]
      exact List.takeWhile_append_dropWhile _ _
  · have h2' : List.count '.' name.data > 1 := h2
    have h0' : ¬ List.count '.' name.data = 0 := by omega
    simp [decompose_name, h0', h2']

/-- Witness for C5: a dot-free name passes through unqualified, and the
doubly-qualified name `a.b.c` is malformed. -/
theorem decompose_name_cases_witness :
    decompose_name "sky" = .ok (none, "sky")
    ∧ decompose_name "a.b.c" = .error (.malformedName "a.b.c") :=
  ⟨(decompose_name_cases "sky").1 (by decide),
   (decompose_name_cases "a.b.c").2.2 (by decide)⟩

/-! ## C3, C4: the two lookup operations -/

/-- C3: `get_color_for_name` resolves an unqualified reference through the
flattened table, failing with `ColorNotFoundError` exactly when the name is
absent there; a qualified reference fails with `GroupNotFoundError` exactly
when the qualifier names no group, fails with `ColorNotFoundError` exactly
when the name is absent from that group, and otherwise returns that
specific group's value, independent of every other group. -/
theorem get_color_for_name_spec (cm : ColorMappings) (ref : String) :
    (∀ n, decompose_name ref = .ok (none, n) →
      cm.get_color_for_name ref =
        match lookupA n cm.all_colors with
        | none => .error (.colorNotFound n)
        | some v => .ok v)
    ∧ (∀ q n, decompose_name ref = .ok (some q, n) →
        (lookupA q cm.color_map = none →
          cm.get_color_for_name ref = .error (.groupNotFound q))
        ∧ ∀ gr, lookupA q cm.color_map = some gr →
            (lookupA n gr = none →
              cm.get_color_for_name ref = .error (.colorNotFound n))
            ∧ ∀ v, lookupA n gr = some v → cm.get_color_for_name ref = .ok v) := by
  refine ⟨fun n hdec => ?_, fun q n hdec => ?_⟩
  · simp [ColorMappings.get_color_for_name, hdec, bind, Except.bind]
  · refine ⟨fun hq => ?_, fun gr hq => ⟨fun hn => ?_, fun v hn => ?_⟩⟩
    · simp [ColorMappings.get_color_for_name, hdec, hq, bind, Except.bind]
    · simp [ColorMappings.get_color_for_name, hdec, hq, hn, bind, Except.bind]
    · simp [ColorMappings.get_color_for_name, hdec, hq, hn, bind, Except.bind]

/-- Witness for C3: in `dupCM`, the qualified reference `grays.sky` returns
the `grays` value even though `blues` also defines `sky`; an absent name
fails with `ColorNotFoundError`. -/
theorem get_color_for_name_spec_witness :
    dupCM.get_color_for_name "grays.sky" = .ok "#9999aa"
    ∧ dupCM.get_color_for_name "mauve" = .error (.colorNotFound "mauve") :=
  ⟨((((get_color_for_name_spec dupCM "grays.sky").2 "grays" "sky" rfl).2
      [("sky", "#9999aa"), ("slate", "#708090")] rfl).2 "#9999aa" rfl),
   ((get_color_for_name_spec dupCM "mauve").1 "mauve" rfl).trans rfl⟩

/-- C4: `get_color_name_for_binding` fails with `UnqualifiedBindingError`
exactly when the reference contains no `'.'`; with a qualifier it fails
with `CategoryNotFoundError` exactly when no category has that key, fails
with `ElementNotFoundError` exactly when the element is absent from the
category, and otherwise returns the bound color name. -/
theorem get_color_name_for_binding_spec (cm : ColorMappings) (ref : String) :
    (cm.get_color_name_for_binding ref = .error (.unqualifiedBinding ref)
      ↔ ref.toList.count '.' = 0)
    ∧ (∀ q n, decompose_name ref = .ok (some q, n) →
        (lookupA q cm.bindings = none →
          cm.get_color_name_for_binding ref = .error (.categoryNotFound q))
        ∧ ∀ cat, lookupA q cm.bindings = some cat →
            (lookupA n cat = none →
              cm.get_color_name_for_binding ref = .error (.elementNotFound n q))
            ∧ ∀ cn, lookupA n cat = some cn →
                cm.get_color_name_for_binding ref = .ok cn) := by
  constructor
  · constructor
    · intro h
      by_contra hcnt
      have h2 : ¬ List.count '.' ref.data = 0 := hcnt
      by_cases hgt : 1 < List.count '.' ref.data
      · have hdec : decompose_name ref = .error (.malformedName ref) := by
          simp [decompose_name, h2, hgt]
        simp [ColorMappings.get_color_name_for_binding, hdec, bind, Except.bind] at h
      · have hdec : decompose_name ref =
            .ok (some ⟨ref.data.takeWhile (fun c => !decide (c = '.'))⟩,
                 ⟨(ref.data.dropWhile (fun c => !decide (c = '.'))).drop 1⟩) := by
          simp [decompose_name, h2, hgt, List.drop_one]
        simp only [ColorMappings.get_color_name_for_binding, hdec, bind,
          Except.bind] at h
        split at h <;> simp_all
        split at h <;> simp_all
    · intro h0
      have h0' : List.count '.' ref.data = 0 := h0
      have hdec : decompose_name ref = .ok (none, ref) := by
        simp [decompose_name, h0']
      simp [ColorMappings.get_color_name_for_binding, hdec, bind, Except.bind]
  · intro q n hdec
    refine ⟨fun hq => ?_, fun cat hq => ⟨fun hn => ?_, fun cn hn => ?_⟩⟩
    · simp [ColorMappings.get_color_name_for_binding, hdec, hq, bind, Except.bind]
    · simp [ColorMappings.get_color_name_for_binding, hdec, hq, hn, bind,
        Except.bind]
    · simp [ColorMappings.get_color_name_for_binding, hdec, hq, hn, bind,
        Except.bind]

/-- Witness for C4: the unqualified reference `border` is rejected, and the
qualified reference `ui.border` resolves to the color name `sky`. -/
theorem get_color_name_for_binding_spec_witness :
    sampleCM.get_color_name_for_binding "border"
      = .error (.unqualifiedBinding "border")
    ∧ sampleCM.get_color_name_for_binding "ui.border" = .ok "sky" :=
  ⟨(get_color_name_for_binding_spec sampleCM "border").1.mpr (by decide),
   (((get_color_name_for_binding_spec sampleCM "ui.border").2 "ui" "border"
      rfl).2 [("border", "sky")] rfl).2 "sky" rfl⟩

/-! ## C6: the resolver is the composition of the two stages -/

/-- C6: `get_color_for_binding` is exactly `get_color_for_name` composed
with `get_color_name_for_binding`; a failure of either stage propagates
unchanged. -/
theorem get_color_for_binding_composes (cm : ColorMappings) (ref : String) :
    cm.get_color_for_binding ref
      = (cm.get_color_name_for_binding ref).bind cm.get_color_for_name
    ∧ (∀ e, cm.get_color_name_for_binding ref = .error e →
        cm.get_color_for_binding ref = .error e)
    ∧ (∀ cn, cm.get_color_name_for_binding ref = .ok cn →
        cm.get_color_for_binding ref = cm.get_color_for_name cn) := by
  refine ⟨?_, fun e he => ?_, fun cn hcn => ?_⟩
  · cases h : cm.get_color_name_for_binding ref <;>
      simp [ColorMappings.get_color_for_binding, h, bind, Except.bind,
        Except.bind]
  · simp [ColorMappings.get_color_for_binding, he, bind, Except.bind]
  · simp [ColorMappings.get_color_for_binding, hcn, bind, Except.bind]

/-- Witness for C6: a successful first stage hands its color name to the
second stage, and a first-stage failure propagates unchanged. -/
theorem get_color_for_binding_composes_witness :
    sampleCM.get_color_for_binding "ui.border"
      = sampleCM.get_color_for_name "sky"
    ∧ sampleCM.get_color_for_binding "border"
      = .error (.unqualifiedBinding "border") :=
  ⟨(get_color_for_binding_composes sampleCM "ui.border").2.2 "sky" rfl,
   (get_color_for_binding_composes sampleCM "border").2.1
     (.unqualifiedBinding "border") rfl⟩

/-! ## Lemmas about the theme rewriter -/

theorem resolveValue_ok_cases (cm : ColorMappings) (v v' : String)
    (h : resolveValue cm v = .ok v') :
    (isLiteral v = true → v' = v)
    ∧ (isLiteral v = false → cm.get_color_for_binding v = .ok v') := by
  constructor <;> intro hs
  · rw [resolveValue, hs] at h
    simp at h
    exact h.symm
  · rw [resolveValue, hs] at h
    simpa using h

theorem resolveValue_of_literal (cm : ColorMappings) (v : String)
    (hs : isLiteral v = true) : resolveValue cm v = .ok v := by
  simp [resolveValue, hs]

theorem applyToColors_ok_forall₂ (cm : ColorMappings)
    (l l' : List (String × String)) (h : applyToColors cm l = .ok l') :
    List.Forall₂ (fun p p' => p'.1 = p.1 ∧ resolveValue cm p.2 = .ok p'.2) l l' := by
  induction l generalizing l' with
  | nil =>
    simp only [applyToColors, Except.ok.injEq] at h
    subst h
    exact List.Forall₂.nil
  | cons p rest ih =>
    obtain ⟨k, v⟩ := p
    cases hv : resolveValue cm v with
    | error e => simp [applyToColors, bind, Except.bind, hv] at h
    | ok v' =>
      cases hr : applyToColors cm rest with
      | error e => simp [applyToColors, bind, Except.bind, hv, hr] at h
      | ok rest' =>
        simp only [applyToColors, bind, Except.bind, hv, hr,
          Except.ok.injEq] at h
        subst h
        exact List.Forall₂.cons ⟨rfl, hv⟩ (ih rest' hr)

theorem applyToColors_of_literal (cm : ColorMappings) (l : List (String × String))
    (h : ∀ p ∈ l, isLiteral p.2 = true) : applyToColors cm l = .ok l := by
  induction l with
  | nil => rfl
  | cons p rest ih =>
    obtain ⟨k, v⟩ := p
    have hv : resolveValue cm v = .ok v :=
      resolveValue_of_literal cm v (h (k, v) (List.mem_cons_self _ _))
    have hr := ih (fun q hq => h q (List.mem_cons_of_mem _ hq))
    simp [applyToColors, bind, Except.bind, hv, hr]

theorem applyToField_ok_cases (cm : ColorMappings) (o o' : Option String)
    (h : applyToField cm o = .ok o') :
    (o = none → o' = none)
    ∧ ∀ v, o = some v → ∃ v', resolveValue cm v = .ok v' ∧ o' = some v' := by
  cases o with
  | none =>
    simp only [applyToField, Except.ok.injEq] at h
    exact ⟨fun _ => h.symm, fun v hv => by cases hv⟩
  | some v =>
    cases hv : resolveValue cm v with
    | error e => simp [applyToField, bind, Except.bind, hv] at h
    | ok v' =>
      simp only [applyToField, bind, Except.bind, hv, Except.ok.injEq] at h
      subst h
      constructor
      · intro hn
        cases hn
      · intro w hw
        obtain rfl : w = v := by cases hw; rfl
        exact ⟨v', hv, rfl⟩

theorem applyToField_of_literal (cm : ColorMappings) (o : Option String)
    (h : literalOpt o = true) : applyToField cm o = .ok o := by
  cases o with
  | none => rfl
  | some v =>
    have hs : isLiteral v = true := h
    simp [applyToField, bind, Except.bind, resolveValue_of_literal cm v hs]

theorem applyToSettings_ok_cases (cm : ColorMappings) (s s' : ThemeSettings)
    (h : applyToSettings cm s = .ok s') :
    s'.rest = s.rest
    ∧ applyToField cm s.foreground = .ok s'.foreground
    ∧ applyToField cm s.background = .ok s'.background := by
  cases hf : applyToField cm s.foreground with
  | error e => simp [applyToSettings, bind, Except.bind, hf] at h
  | ok fg =>
    cases hb : applyToField cm s.background with
    | error e => simp [applyToSettings, bind, Except.bind, hf, hb] at h
    | ok bg =>
      simp only [applyToSettings, bind, Except.bind, hf, hb,
        Except.ok.injEq] at h
      subst h
      exact ⟨rfl, rfl, rfl⟩

theorem applyToSettings_of_literal (cm : ColorMappings) (s : ThemeSettings)
    (hf : literalOpt s.foreground = true) (hb : literalOpt s.background = true) :
    applyToSettings cm s = .ok s := by
  obtain ⟨fg, bg, rest⟩ := s
  simp only [applyToSettings, bind, Except.bind,
    applyToField_of_literal cm fg hf, applyToField_of_literal cm bg hb]

theorem applyToTokenColors_ok_forall₂ (cm : ColorMappings)
    (rs rs' : List TokenColorRule) (h : applyToTokenColors cm rs = .ok rs') :
    List.Forall₂ (fun r r' =>
      (r.settings = none → r' = r)
      ∧ r'.rest = r.rest
      ∧ ∀ s, r.settings = some s →
          ∃ s', applyToSettings cm s = .ok s'
            ∧ r' = { r with settings := some s' }) rs rs' := by
  induction rs generalizing rs' with
  | nil =>
    simp only [applyToTokenColors, Except.ok.injEq] at h
    subst h
    exact List.Forall₂.nil
  | cons r rest ih =>
    obtain ⟨oset, rrest⟩ := r
    cases oset with
    | none =>
      cases hr : applyToTokenColors cm rest with
      | error e => simp [applyToTokenColors, bind, Except.bind, hr] at h
      | ok rest' =>
        simp only [applyToTokenColors, bind, Except.bind, hr,
          Except.ok.injEq] at h
        subst h
        refine List.Forall₂.cons ⟨fun _ => rfl, rfl, fun s hs => ?_⟩ (ih rest' hr)
        cases hs
    | some s =>
      cases hset : applyToSettings cm s with
      | error e => simp [applyToTokenColors, bind, Except.bind, hset] at h
      | ok s' =>
        cases hr : applyToTokenColors cm rest with
        | error e =>
          simp [applyToTokenColors, bind, Except.bind, hset, hr] at h
        | ok rest' =>
          simp only [applyToTokenColors, bind, Except.bind, hset, hr,
            Except.ok.injEq] at h
          subst h
          refine List.Forall₂.cons ⟨fun hn => ?_, rfl, fun s0 hs0 => ?_⟩
            (ih rest' hr)
          · cases hn
          · obtain rfl : s0 = s := by cases hs0; rfl
            exact ⟨s', hset, rfl⟩

theorem applyToTokenColors_of_literal (cm : ColorMappings)
    (rs : List TokenColorRule) (h : ∀ r ∈ rs, literalRule r = true) :
    applyToTokenColors cm rs = .ok rs := by
  induction rs with
  | nil => rfl
  | cons r rest ih =>
    have hr := ih (fun q hq => h q (List.mem_cons_of_mem _ hq))
    have h1 := h r (List.mem_cons_self _ _)
    obtain ⟨oset, rrest⟩ := r
    cases oset with
    | none => simp [applyToTokenColors, bind, Except.bind, hr]
    | some s =>
      rw [literalRule] at h1
      rw [Bool.and_eq_true] at h1
      have hset := applyToSettings_of_literal cm s h1.1 h1.2
      simp [applyToTokenColors, bind, Except.bind, hset, hr]

theorem apply_to_theme_ok_parts (cm : ColorMappings) (t t' : Theme)
    (h : cm.apply_to_theme t = .ok t') :
    t'.rest = t.rest
    ∧ applyToColors cm t.colors = .ok t'.colors
    ∧ applyToTokenColors cm t.tokenColors = .ok t'.tokenColors := by
  cases hc : applyToColors cm t.colors with
  | error e => simp [ColorMappings.apply_to_theme, bind, Except.bind, hc] at h
  | ok cs =>
    cases htc : applyToTokenColors cm t.tokenColors with
    | error e =>
      simp [ColorMappings.apply_to_theme, bind, Except.bind, hc, htc] at h
    | ok tcs =>
      simp only [ColorMappings.apply_to_theme, bind, Except.bind, hc, htc,
        Except.ok.injEq] at h
      subst h
      exact ⟨rfl, rfl, rfl⟩

theorem apply_to_theme_of_parts (cm : ColorMappings) (t : Theme)
    (hc : applyToColors cm t.colors = .ok t.colors)
    (htc : applyToTokenColors cm t.tokenColors = .ok t.tokenColors) :
    cm.apply_to_theme t = .ok t := by
  simp only [ColorMappings.apply_to_theme, bind, Except.bind, hc, htc]

theorem applyTheme_id_of_literal (cm : ColorMappings) (t : Theme)
    (h : allLiteralTheme t = true) : cm.apply_to_theme t = .ok t := by
  rw [allLiteralTheme, Bool.and_eq_true] at h
  obtain ⟨h1, h2⟩ := h
  rw [List.all_eq_true] at h1
  rw [List.all_eq_true] at h2
  exact apply_to_theme_of_parts cm t
    (applyToColors_of_literal cm t.colors h1)
    (applyToTokenColors_of_literal cm t.tokenColors h2)

theorem applyToField_fieldRewritten (cm : ColorMappings) (o o' : Option String)
    (h : applyToField cm o = .ok o') : fieldRewritten cm o o' := by
  obtain ⟨hn, hsome⟩ := applyToField_ok_cases cm o o' h
  refine ⟨hn, fun v hv => ?_⟩
  obtain ⟨v', hrv, rfl⟩ := hsome v hv
  obtain ⟨h1, h2⟩ := resolveValue_ok_cases cm v v' hrv
  exact ⟨fun hs => by rw [h1 hs], fun hs => ⟨v', h2 hs, rfl⟩⟩

/-! ## C1: the rewriter resolves every non-literal entry -/

/-- C1: on success, every `colors` entry keeps its key and its value passes
the literal-marker test: a `'#'`-prefixed value is kept, any other value is
replaced by `get_color_for_binding`; and every rule with a `settings`
sub-object has its `foreground` and `background` treated independently by
the same rule. -/
theorem apply_to_theme_rewrites (cm : ColorMappings) (t t' : Theme)
    (h : cm.apply_to_theme t = .ok t') :
    List.Forall₂ (colorEntryRewritten cm) t.colors t'.colors
    ∧ List.Forall₂ (ruleRewritten cm) t.tokenColors t'.tokenColors := by
  obtain ⟨-, hc, htc⟩ := apply_to_theme_ok_parts cm t t' h
  constructor
  · refine (applyToColors_ok_forall₂ cm _ _ hc).imp ?_
    intro p p' hp
    obtain ⟨hk, hv⟩ := hp
    obtain ⟨h1, h2⟩ := resolveValue_ok_cases cm p.2 p'.2 hv
    exact ⟨hk, fun hs => by rw [h1 hs], h2⟩
  · refine (applyToTokenColors_ok_forall₂ cm _ _ htc).imp ?_
    intro r r' hr s hs
    obtain ⟨hnone, hrest, hsome⟩ := hr
    obtain ⟨s', hset, rfl⟩ := hsome s hs
    obtain ⟨hsrest, hfg, hbg⟩ := applyToSettings_ok_cases cm s s' hset
    exact ⟨s', rfl, applyToField_fieldRewritten cm _ _ hfg,
      applyToField_fieldRewritten cm _ _ hbg⟩

/-- Witness for C1 at the scenario tables and theme. -/
theorem apply_to_theme_rewrites_witness :
    List.Forall₂ (colorEntryRewritten sampleCM)
      sampleTheme.colors sampleThemeOut.colors
    ∧ List.Forall₂ (ruleRewritten sampleCM)
      sampleTheme.tokenColors sampleThemeOut.tokenColors :=
  apply_to_theme_rewrites sampleCM sampleTheme sampleThemeOut rfl

/-! ## C7: round trip on an all-literal document -/

/-- C7: a document whose rewritable values all carry the literal marker is
returned identical to the input, and any `'#'`-prefixed string is left
unchanged verbatim by the per-value rewrite. -/
theorem apply_to_theme_round_trip (cm : ColorMappings) (t : Theme)
    (h : allLiteralTheme t = true) :
    cm.apply_to_theme t = .ok t
    ∧ ∀ v : String, isLiteral v = true → resolveValue cm v = .ok v :=
  ⟨applyTheme_id_of_literal cm t h, fun v hv => resolveValue_of_literal cm v hv⟩

/-- Witness for C7: the all-literal theme `litTheme` is a fixed point. -/
theorem apply_to_theme_round_trip_witness :
    sampleCM.apply_to_theme litTheme = .ok litTheme :=
  (apply_to_theme_round_trip sampleCM litTheme (by decide)).1

/-! ## C8: frame condition of the rewriter -/

theorem forall₂_mem_right {α β : Type} {R : α → β → Prop} {l1 : List α}
    {l2 : List β} (h : List.Forall₂ R l1 l2) {b : β} (hb : b ∈ l2) :
    ∃ a ∈ l1, R a b := by
  induction h with
  | nil => cases hb
  | cons hab _ ih =>
    rcases List.mem_cons.mp hb with rfl | hb'
    · exact ⟨_, List.mem_cons_self _ _, hab⟩
    · obtain ⟨a, ha, hr⟩ := ih hb'
      exact ⟨a, List.mem_cons_of_mem _ ha, hr⟩

theorem forall₂_map_fst {R : String × String → String × String → Prop}
    (hR : ∀ p p', R p p' → p'.1 = p.1) :
    ∀ {l1 l2 : List (String × String)}, List.Forall₂ R l1 l2 →
      l2.map Prod.fst = l1.map Prod.fst := by
  intro l1 l2 h
  induction h with
  | nil => rfl
  | cons hpq _ ih => simp [hR _ _ hpq, ih]

/-- C8: on success, the rewriter preserves every top-level field other than
`colors`/`tokenColors`, the keys of `colors`, and, rule by rule, everything
except the `foreground`/`background` fields of a present `settings`
sub-object; absent `settings` or absent fields are skipped, not errors. -/
theorem apply_to_theme_frame (cm : ColorMappings) (t t' : Theme)
    (h : cm.apply_to_theme t = .ok t') :
    t'.rest = t.rest
    ∧ t'.colors.map Prod.fst = t.colors.map Prod.fst
    ∧ List.Forall₂ ruleFramePreserved t.tokenColors t'.tokenColors := by
  obtain ⟨hrest, hc, htc⟩ := apply_to_theme_ok_parts cm t t' h
  refine ⟨hrest, ?_, ?_⟩
  · exact forall₂_map_fst (fun p p' hp => hp.1)
      (applyToColors_ok_forall₂ cm _ _ hc)
  · refine (applyToTokenColors_ok_forall₂ cm _ _ htc).imp ?_
    intro r r' hr
    obtain ⟨hnone, hrest', hsome⟩ := hr
    refine ⟨hrest', hnone, fun s hs => ?_⟩
    obtain ⟨s', hset, rfl⟩ := hsome s hs
    obtain ⟨hsrest, hfg, hbg⟩ := applyToSettings_ok_cases cm s s' hset
    exact ⟨s', rfl, hsrest, (applyToField_ok_cases cm _ _ hfg).1,
      (applyToField_ok_cases cm _ _ hbg).1⟩

/-- Witness for C8 at the scenario tables and theme. -/
theorem apply_to_theme_frame_witness :
    sampleThemeOut.rest = sampleTheme.rest
    ∧ sampleThemeOut.colors.map Prod.fst = sampleTheme.colors.map Prod.fst
    ∧ List.Forall₂ ruleFramePreserved
        sampleTheme.tokenColors sampleThemeOut.tokenColors :=
  apply_to_theme_frame sampleCM sampleTheme sampleThemeOut rfl

/-! ## C9, C10: literal tables give literal outputs, and idempotence -/

theorem lookupA_some_mem {β : Type} (k : String) (v : β) :
    ∀ l : List (String × β), lookupA k l = some v → (k, v) ∈ l := by
  intro l h
  induction l with
  | nil => cases h
  | cons p rest ih =>
    obtain ⟨k', v'⟩ := p
    by_cases he : k' = k
    · subst he
      simp [lookupA] at h
      subst h
      exact List.mem_cons_self _ _
    · rw [lookupA, if_neg he] at h
      exact List.mem_cons_of_mem _ (ih h)

theorem get_color_for_name_literal_out (cm : ColorMappings)
    (h : allLiteralTable cm = true) (ref v : String)
    (hok : cm.get_color_for_name ref = .ok v) : isLiteral v = true := by
  rw [allLiteralTable, List.all_eq_true] at h
  cases hdec : decompose_name ref with
  | error e =>
    simp [ColorMappings.get_color_for_name, hdec, bind, Except.bind] at hok
  | ok qn =>
    obtain ⟨q, n⟩ := qn
    cases q with
    | none =>
      cases hl : lookupA n cm.all_colors with
      | none =>
        simp [ColorMappings.get_color_for_name, hdec, hl, bind,
          Except.bind] at hok
      | some w =>
        simp only [ColorMappings.get_color_for_name, hdec, hl, bind,
          Except.bind, Except.ok.injEq] at hok
        subst hok
        rw [ColorMappings.all_colors, lookupA_mkAllColors] at hl
        have hmem := lookupA_some_mem n w _ hl
        rw [List.mem_flatMap] at hmem
        obtain ⟨g, hg, hpg⟩ := hmem
        have hall := h g hg
        rw [List.all_eq_true] at hall
        exact hall (n, w) hpg
    | some q =>
      cases hq : lookupA q cm.color_map with
      | none =>
        simp [ColorMappings.get_color_for_name, hdec, hq, bind,
          Except.bind] at hok
      | some gr =>
        cases hn : lookupA n gr with
        | none =>
          simp [ColorMappings.get_color_for_name, hdec, hq, hn, bind,
            Except.bind] at hok
        | some w =>
          simp only [ColorMappings.get_color_for_name, hdec, hq, hn, bind,
            Except.bind, Except.ok.injEq] at hok
          subst hok
          have hall := h (q, gr) (lookupA_some_mem q gr _ hq)
          rw [List.all_eq_true] at hall
          exact hall (n, w) (lookupA_some_mem n w _ hn)

theorem get_color_for_binding_literal_out (cm : ColorMappings)
    (h : allLiteralTable cm = true) (ref v : String)
    (hok : cm.get_color_for_binding ref = .ok v) : isLiteral v = true := by
  cases hcn : cm.get_color_name_for_binding ref with
  | error e =>
    simp [ColorMappings.get_color_for_binding, hcn, bind, Except.bind] at hok
  | ok cn =>
    simp only [ColorMappings.get_color_for_binding, hcn, bind,
      Except.bind] at hok
    exact get_color_for_name_literal_out cm h cn v hok

theorem resolveValue_literal_out (cm : ColorMappings)
    (h : allLiteralTable cm = true) (v v' : String)
    (hok : resolveValue cm v = .ok v') : isLiteral v' = true := by
  cases hs : isLiteral v with
  | true =>
    obtain ⟨h1, -⟩ := resolveValue_ok_cases cm v v' hok
    rw [h1 hs]
    exact hs
  | false =>
    obtain ⟨-, h2⟩ := resolveValue_ok_cases cm v v' hok
    exact get_color_for_binding_literal_out cm h v v' (h2 hs)

theorem applyToField_literal_out (cm : ColorMappings)
    (h : allLiteralTable cm = true) (o o' : Option String)
    (hok : applyToField cm o = .ok o') : literalOpt o' = true := by
  obtain ⟨hn, hsome⟩ := applyToField_ok_cases cm o o' hok
  cases o with
  | none =>
    rw [hn rfl]
    rfl
  | some v =>
    obtain ⟨v', hrv, rfl⟩ := hsome v rfl
    exact resolveValue_literal_out cm h v v' hrv

theorem applyTheme_literal_out (cm : ColorMappings) (t t' : Theme)
    (h : allLiteralTable cm = true) (hok : cm.apply_to_theme t = .ok t') :
    allLiteralTheme t' = true := by
  obtain ⟨-, hc, htc⟩ := apply_to_theme_ok_parts cm t t' hok
  rw [allLiteralTheme, Bool.and_eq_true]
  constructor
  · rw [List.all_eq_true]
    intro p' hp'
    obtain ⟨p, -, -, hv⟩ :=
      forall₂_mem_right (applyToColors_ok_forall₂ cm _ _ hc) hp'
    exact resolveValue_literal_out cm h p.2 p'.2 hv
  · rw [List.all_eq_true]
    intro r' hr'
    obtain ⟨r, -, hnone, hrest, hsome⟩ :=
      forall₂_mem_right (applyToTokenColors_ok_forall₂ cm _ _ htc) hr'
    cases hrs : r.settings with
    | none =>
      rw [hnone hrs]
      simp [literalRule, hrs]
    | some s =>
      obtain ⟨s', hset, rfl⟩ := hsome s hrs
      obtain ⟨-, hfg, hbg⟩ := applyToSettings_ok_cases cm s s' hset
      have h1 := applyToField_literal_out cm h _ _ hfg
      have h2 := applyToField_literal_out cm h _ _ hbg
      simp [literalRule, h1, h2]

/-- C9: if every color value stored in the table begins with `'#'`, then
every rewritable value of a successfully rewritten theme begins with `'#'`:
no unresolved reference survives a successful run. -/
theorem apply_to_theme_output_literal (cm : ColorMappings) (t t' : Theme)
    (h : allLiteralTable cm = true) (hok : cm.apply_to_theme t = .ok t') :
    allLiteralTheme t' = true :=
  applyTheme_literal_out cm t t' h hok

/-- Witness for C9 at the scenario tables and theme. -/
theorem apply_to_theme_output_literal_witness :
    allLiteralTheme sampleThemeOut = true :=
  apply_to_theme_output_literal sampleCM sampleTheme sampleThemeOut
    (by decide) rfl

/-- C10: when every color value in the table begins with `'#'`, rewriting is
idempotent: the output of a successful pass is a fixed point of a second
pass. -/
theorem apply_to_theme_idempotent (cm : ColorMappings) (t t' : Theme)
    (h : allLiteralTable cm = true) (hok : cm.apply_to_theme t = .ok t') :
    cm.apply_to_theme t' = .ok t' :=
  applyTheme_id_of_literal cm t' (applyTheme_literal_out cm t t' h hok)

/-- Witness for C10 at the scenario tables and theme. -/
theorem apply_to_theme_idempotent_witness :
    sampleCM.apply_to_theme sampleThemeOut = .ok sampleThemeOut :=
  apply_to_theme_idempotent sampleCM sampleTheme sampleThemeOut
    (by decide) rfl

end ColorizeTheme
